import Mathlib

/-!
Verification of the dhall-rust type checker specification.

This development embeds the core of the `kryptn/dhall-rust` type checker in
Lean 4 and settles a list of claims about it.  The repository contains two
generations of the checker:

* `dhall/src/phase/typecheck.rs` — the current checker (the spec's `RetWhole`
  / `RetTypeOnly` vocabulary and error kinds come from this file); it is the
  primary source for the embedding below.
* `dhall/src/typecheck.rs` — the superseded generation; the parts of it that
  specific claims cite (`TypecheckContext::insert_type` / `insert_value`,
  `match_vars`, the legacy `function_check`, the `type_of` entry point) are
  embedded separately under the `Legacy` namespace.

The value / thunk infrastructure (`core/value.rs`, `core/valuef.rs`,
`core/var.rs`, `core/context.rs`) and the old `expr.rs` are not part of the
source snapshot; those parts are modelled from the spec, as flagged by doc
comments starting with `Modelled from the spec:`.
-/

namespace Dhall

/-- A label is a source identifier (spec §3). -/
abbrev Label := String

/-- A variable is a pair `V(name, index)` where the index counts, from the
innermost scope outward, how many same-named binders to skip (spec §3). -/
structure Var where
  name : Label
  idx : Nat
deriving DecidableEq, Repr

/-- Universe constants, ordered `Type < Kind < Sort`
(`dhall_syntax::Const`, declaration order). -/
inductive Const where
  | type'
  | kind
  | sort
deriving DecidableEq, Repr

/-- Rank realising the derived `Ord` on `Const` (declaration order). -/
def Const.rank : Const → Nat
  | .type' => 0
  | .kind => 1
  | .sort => 2

/-- Rust's `std::cmp::max` on the derived `Ord` for `Const`:
returns the second argument when it is greater or equal. -/
def Const.max (a b : Const) : Const :=
  if a.rank ≤ b.rank then b else a

/-- The builtins the embedding needs (a sub-enumeration of
`dhall_syntax::Builtin`; the higher-order builtins are not exercised by any
claim). -/
inductive Builtin where
  | bool
  | natural
  | integer
  | double
  | text
  | list
  | optional
deriving DecidableEq, Repr

/-- Type error kinds (`TypeMessage` in both generations).  The offending
sub-expression / context payloads carried by the Rust enum are omitted; the
claims only concern the error kinds. -/
inductive Err where
  | unboundVariable
  | invalidInputType
  | invalidOutputType
  | notAFunction
  | typeMismatch
  | annotMismatch
  | invalidTextInterpolation
  | invalidFieldType
  | recordTypeDuplicateField
  | unionTypeDuplicateField
  | merge1ArgMustBeRecord
  | merge2ArgMustBeUnion
  | mergeAnnotMismatch
  | mergeEmptyNeedsAnnot
  | mergeHandlerTypeMismatch
  | mergeHandlerMissingVariant
  | mergeVariantMissingHandler
  | mergeHandlerReturnTypeMustNotBeDependent
  | sort
deriving DecidableEq, Repr

/-! ## `function_check` (phase/typecheck.rs lines 124–131)

```rust
fn function_check(a: Const, b: Const) -> Const {
    use std::cmp::max;
    if b == Const::Type { Const::Type } else { max(a, b) }
}
```
-/

/-- The universe computation used by the Pi rule of the current checker
(`src/dhall/src/phase/typecheck.rs:124`). -/
def function_check (a b : Const) : Const :=
  if b = Const.type' then Const.type' else Const.max a b

namespace Legacy

/-- The superseded `function_check` (`src/dhall/src/typecheck.rs:247`):
a fallible function that errors on the pairs the old checker did not allow
(e.g. `(Type, Kind)`, reported as `NoDependentTypes`). -/
def function_check (a b : Const) : Except Unit Const :=
  match a, b with
  | _, .type' => .ok .type'
  | .kind, .kind => .ok .kind
  | .sort, .sort => .ok .sort
  | .sort, .kind => .ok .sort
  | _, _ => .error ()

end Legacy

/-! ## The double-literal parser rules
(`src/dhall/src/syntax/text/parser.rs` lines 349–373; the
`src/dhall_core/src/parser.rs` copy at lines 395–409 has the same logic).

The only property of `f64` the rules inspect is `is_infinite`, so IEEE-754
doubles are embedded as an abstraction that distinguishes NaN, the two
infinities and finite values; the decimal-string conversion performed by
Rust's `str::parse::<f64>` is taken as an input of the rule. -/

/-- Abstraction of an `f64` value at the granularity the parser rules use.
The payload of `finite` stands for an arbitrary finite IEEE-754 value. -/
inductive F64 where
  | nan
  | posInf
  | negInf
  | finite (sig : Int) (exp : Int)
deriving DecidableEq, Repr

/-- Embeds `f64::is_infinite`. -/
def F64.isInfinite : F64 → Bool
  | .posInf => true
  | .negInf => true
  | _ => false

/-- Embeds `numeric_double_literal` (parser.rs:363): given the outcome of
`s.parse::<f64>()`, reject an infinite result as an overflow, propagate a
parse error, and accept any other value. -/
def numeric_double_literal (parsed : Except String F64) : Except String F64 :=
  match parsed with
  | .ok x => if x.isInfinite then .error "Overflow while parsing double literal" else .ok x
  | .error e => .error e

/-- The `NaN` literal rule (parser.rs:350): always succeeds with `f64::NAN`. -/
def NaN_literal : Except String F64 := .ok .nan

/-- The `minus_infinity_literal` rule (parser.rs:354). -/
def minus_infinity_literal : Except String F64 := .ok .negInf

/-- The `plus_infinity_literal` rule (parser.rs:358). -/
def plus_infinity_literal : Except String F64 := .ok .posInf

/-! ## The legacy alpha-equivalence variable matcher
(`src/dhall/src/typecheck.rs` lines 258–274)

```rust
fn match_vars(vl: &V<Label>, vr: &V<Label>, ctx: &[(&Label, &Label)]) -> bool {
    let (V(xL, mut nL), V(xR, mut nR)) = (vl, vr);
    for &(xL2, xR2) in ctx {
        match (nL, nR) {
            (0, 0) if xL == xL2 && xR == xR2 => return true,
            (_, _) => {
                if xL == xL2 { nL -= 1; }
                if xR == xR2 { nR -= 1; }
            }
        }
    }
    xL == xR && nL == nR
}
```

The counters `nL`, `nR` are `usize`; `nL -= 1` at `nL == 0` is an arithmetic
underflow (a panic in debug builds, a wrap to `usize::MAX` in release
builds).  The embedding returns `none` when the underflow is hit. -/

/-- The loop body of the legacy `match_vars`; `none` models the `usize`
underflow of `nL -= 1` / `nR -= 1` at zero. -/
def match_vars_loop (xL : Label) (nL : Nat) (xR : Label) (nR : Nat) :
    List (Label × Label) → Option Bool
  | [] => some (xL = xR ∧ nL = nR : Bool)
  | (xL2, xR2) :: rest =>
    if nL = 0 ∧ nR = 0 ∧ xL = xL2 ∧ xR = xR2 then some true
    else do
      let nL' ← if xL = xL2 then (if nL = 0 then none else some (nL - 1)) else some nL
      let nR' ← if xR = xR2 then (if nR = 0 then none else some (nR - 1)) else some nR
      match_vars_loop xL nL' xR nR' rest

/-- Direct translation of the legacy `match_vars`. -/
def match_vars (vl vr : Var) (ctx : List (Label × Label)) : Option Bool :=
  match_vars_loop vl.name vl.idx vr.name vr.idx ctx

end Dhall

namespace Dhall

/-! ## Values

`Modelled from the spec:` the value infrastructure (`core/valuef.rs`,
`core/value.rs`) is not part of the source snapshot.  Following the spec's
design note §9 ("keep a single inductive `Expr`") and the eager variant of
§9's WHNF-laziness note ("(a) eager WHNF on construction"), a checked value
is a head-normal expression (spec §4.B lists the admissible heads) and a
`TypedValue` pairs a value with an optional type (§3 "Entity lifecycles";
the type is absent exactly for `Sort`, which has no type, §3 invariant 1).
Record and union types are label-to-value maps, kept in insertion order. -/

mutual

inductive Value where
  | const (c : Const)
  | var (x : Label) (n : Nat)
  | lam (x : Label) (dom : Value) (body : Value)
  | pi (x : Label) (dom : Value) (cod : Value)
  | app (f : Value) (a : Value)
  | builtin (b : Builtin)
  | naturalLit (n : Nat)
  | boolLit (b : Bool)
  | recordType (kts : VFields)
  | recordLit (kvs : VFields)
  | unionType (kts : VUFields)

/-- Fields of a record type / record literal: an ordered label→value map. -/
inductive VFields where
  | nil
  | cons (l : Label) (v : Value) (rest : VFields)

/-- Fields of a union type: an ordered map from label to optional payload. -/
inductive VUFields where
  | nil
  | consSome (l : Label) (v : Value) (rest : VUFields)
  | consNone (l : Label) (rest : VUFields)

end

/-- A checked expression together with its (optional) type
(spec §3: `TypedValue = (valueF, type)`, the type itself a `TypedValue`;
absent exactly when the value is the untypable `Sort`). -/
inductive TypedValue where
  | mk (value : Value) (typ : Option TypedValue)

/-- The value component. -/
def TypedValue.value : TypedValue → Value
  | .mk v _ => v

/-- The type component. -/
def TypedValue.typ : TypedValue → Option TypedValue
  | .mk _ t => t

/-- Embeds `get_type` — `Modelled from the spec:` returns the stored type;
a value with no type is `Sort` (spec §3 invariant 1), and asking for its
type is the `Sort` error (spec §8 "typecheck(Const(Sort)) fails with
`Sort`", legacy `type_of` comment "Ensure `e` has a type"). -/
def TypedValue.getType : TypedValue → Except Err TypedValue
  | .mk _ (some t) => .ok t
  | .mk _ none => .error .sort

/-- Embeds `as_const`: the head constant of a value, if any
(`phase/typecheck.rs` uses it on types that are universe constants). -/
def Value.asConst : Value → Option Const
  | .const c => some c
  | _ => none

/-- Whether a value's head is a Pi. -/
def Value.isPi : Value → Bool
  | .pi _ _ _ => true
  | _ => false

/-! ## Shift

`Modelled from the spec:` `Shift(d, V(x,n), e)` (spec §3) adjusts free
occurrences of any `V(x,m)` with `m ≥ n` by adding `d`; under a binder
`λ(x:τ).b` it descends into `τ` unchanged and into `b` with `V(x,n+1)`.
As in `core/var.rs`'s `Shift` trait (absent from the snapshot), a negative
`d` that would drive an index below zero yields `none`. -/

/-- Bump the cutoff variable when crossing a binder named `y`. -/
def Var.under (y : Label) (v : Var) : Var :=
  if y = v.name then ⟨v.name, v.idx + 1⟩ else v

mutual

def Value.shift (d : Int) (v : Var) : Value → Option Value
  | .var x n =>
    if x = v.name ∧ n ≥ v.idx then
      let m : Int := (n : Int) + d
      if m < 0 then none else some (.var x m.toNat)
    else some (.var x n)
  | .const c => some (.const c)
  | .lam x dom body => do
    some (.lam x (← dom.shift d v) (← body.shift d (v.under x)))
  | .pi x dom cod => do
    some (.pi x (← dom.shift d v) (← cod.shift d (v.under x)))
  | .app f a => do some (.app (← f.shift d v) (← a.shift d v))
  | .builtin b => some (.builtin b)
  | .naturalLit n => some (.naturalLit n)
  | .boolLit b => some (.boolLit b)
  | .recordType kts => do some (.recordType (← kts.shift d v))
  | .recordLit kvs => do some (.recordLit (← kvs.shift d v))
  | .unionType kts => do some (.unionType (← kts.shift d v))

def VFields.shift (d : Int) (v : Var) : VFields → Option VFields
  | .nil => some .nil
  | .cons l x rest => do some (.cons l (← x.shift d v) (← rest.shift d v))

def VUFields.shift (d : Int) (v : Var) : VUFields → Option VUFields
  | .nil => some .nil
  | .consSome l x rest => do some (.consSome l (← x.shift d v) (← rest.shift d v))
  | .consNone l rest => do some (.consNone l (← rest.shift d v))

end

/-- Shift by `+1` over `v`, which never underflows: `under_binder` in
`core/var.rs` (total). -/
def Value.shift1 (v : Var) (e : Value) : Value :=
  (e.shift 1 v).getD e

/-- Embeds `over_binder x` (`core/var.rs`): extract a value from under the binder
`x` by shifting `-1` over `V(x,0)`; `none` when the shift underflows. -/
def Value.overBinder (x : Label) (e : Value) : Option Value :=
  e.shift (-1) ⟨x, 0⟩

/-! ## Free occurrence of a variable

Semantic freeness of `V(x,n)`: under a same-named binder the sought index
is incremented, exactly as a reference to the same binder would be written
deeper inside (spec §3). -/

mutual

def Value.freeAt (v : Var) : Value → Bool
  | .var x n => x = v.name ∧ n = v.idx
  | .const _ => false
  | .lam x dom body => dom.freeAt v || body.freeAt (v.under x)
  | .pi x dom cod => dom.freeAt v || cod.freeAt (v.under x)
  | .app f a => f.freeAt v || a.freeAt v
  | .builtin _ => false
  | .naturalLit _ => false
  | .boolLit _ => false
  | .recordType kts => kts.freeAt v
  | .recordLit kvs => kvs.freeAt v
  | .unionType kts => kts.freeAt v

def VFields.freeAt (v : Var) : VFields → Bool
  | .nil => false
  | .cons _ x rest => x.freeAt v || rest.freeAt v

def VUFields.freeAt (v : Var) : VUFields → Bool
  | .nil => false
  | .consSome _ x rest => x.freeAt v || rest.freeAt v
  | .consNone _ rest => rest.freeAt v

end

/-! ## Fused substitution + shift

`Modelled from the spec:` `subst_shift` (spec §4.A: "fused shift +
substitute") replaces free `V(x,n)` by `val`, decrements the index of
same-named variables above `n` (the `-1` shift of the removed binder, spec
§4.E App rule), and shifts `val` by `+1` over each binder crossed
(capture-avoiding substitution, spec §3). -/

mutual

def Value.substShift (v : Var) (val : Value) : Value → Value
  | .var x n =>
    if x = v.name ∧ n = v.idx then val
    else if x = v.name ∧ n > v.idx then .var x (n - 1)
    else .var x n
  | .const c => .const c
  | .lam x dom body =>
    .lam x (Value.substShift v val dom)
      (Value.substShift (v.under x) (val.shift1 ⟨x, 0⟩) body)
  | .pi x dom cod =>
    .pi x (Value.substShift v val dom)
      (Value.substShift (v.under x) (val.shift1 ⟨x, 0⟩) cod)
  | .app f a => .app (Value.substShift v val f) (Value.substShift v val a)
  | .builtin b => .builtin b
  | .naturalLit n => .naturalLit n
  | .boolLit b => .boolLit b
  | .recordType kts => .recordType (VFields.substShift v val kts)
  | .recordLit kvs => .recordLit (VFields.substShift v val kvs)
  | .unionType kts => .unionType (VUFields.substShift v val kts)

def VFields.substShift (v : Var) (val : Value) : VFields → VFields
  | .nil => .nil
  | .cons l x rest =>
    .cons l (Value.substShift v val x) (VFields.substShift v val rest)

def VUFields.substShift (v : Var) (val : Value) : VUFields → VUFields
  | .nil => .nil
  | .consSome l x rest =>
    .consSome l (Value.substShift v val x) (VUFields.substShift v val rest)
  | .consNone l rest => .consNone l (VUFields.substShift v val rest)

end

end Dhall

namespace Dhall

/-! ## Alpha-equivalence

`Modelled from the spec:` equality of checked values (`PartialEq` on
`TypedValue` in `core/value.rs`, absent from the snapshot) is structural
equality of the underlying head-normal expressions up to renaming of bound
variables (spec §4.C).  The judgement carries a stack of bound-variable
pairs, pushed at each binder; at a variable both sides must resolve through
the stack to the same position, or to the same free variable. -/

/-- Total variable matcher for α-equivalence: walk the stack of bound pairs
newest-first; a side hits an entry when its name matches with index `0`;
otherwise a matching name consumes one index.  (Semantics of spec §4.C; the
legacy `match_vars` above is the superseded source rendering of the same
judgement.) -/
def matchVarsT : Var → Var → List (Label × Label) → Bool
  | vl, vr, [] => vl = vr
  | ⟨xL, nL⟩, ⟨xR, nR⟩, (a, b) :: rest =>
    let hitL : Bool := xL = a ∧ nL = 0
    let hitR : Bool := xR = b ∧ nR = 0
    if hitL || hitR then hitL && hitR
    else
      matchVarsT ⟨xL, if xL = a then nL - 1 else nL⟩
        ⟨xR, if xR = b then nR - 1 else nR⟩ rest

mutual

def Value.alphaEq (ctx : List (Label × Label)) : Value → Value → Bool
  | .const a, .const b => a = b
  | .builtin a, .builtin b => a = b
  | .naturalLit a, .naturalLit b => a = b
  | .boolLit a, .boolLit b => a = b
  | .var x n, .var y m => matchVarsT ⟨x, n⟩ ⟨y, m⟩ ctx
  | .lam xL tL bL, .lam xR tR bR =>
    Value.alphaEq ctx tL tR && Value.alphaEq ((xL, xR) :: ctx) bL bR
  | .pi xL tL bL, .pi xR tR bR =>
    Value.alphaEq ctx tL tR && Value.alphaEq ((xL, xR) :: ctx) bL bR
  | .app fL aL, .app fR aR => Value.alphaEq ctx fL fR && Value.alphaEq ctx aL aR
  | .recordType kL, .recordType kR => VFields.alphaEq ctx kL kR
  | .recordLit kL, .recordLit kR => VFields.alphaEq ctx kL kR
  | .unionType kL, .unionType kR => VUFields.alphaEq ctx kL kR
  | _, _ => false

def VFields.alphaEq (ctx : List (Label × Label)) : VFields → VFields → Bool
  | .nil, .nil => true
  | .cons lL vL rL, .cons lR vR rR =>
    lL = lR && Value.alphaEq ctx vL vR && VFields.alphaEq ctx rL rR
  | _, _ => false

def VUFields.alphaEq (ctx : List (Label × Label)) : VUFields → VUFields → Bool
  | .nil, .nil => true
  | .consSome lL vL rL, .consSome lR vR rR =>
    lL = lR && Value.alphaEq ctx vL vR && VUFields.alphaEq ctx rL rR
  | .consNone lL rL, .consNone lR rR => lL = lR && VUFields.alphaEq ctx rL rR
  | _, _ => false

end

/-- Embeds `PartialEq` on `TypedValue`: compares the value components up to α
(types are not compared).  `Modelled from the spec:` §4.C. -/
def TypedValue.eq (a b : TypedValue) : Bool :=
  Value.alphaEq [] a.value b.value

/-! ## Universe constants as typed values -/

/-- Embeds `TypedValue::from_const` — `Modelled from the spec:` pairs a universe
constant with its type per the universe closure `Type : Kind : Sort` (spec
§3 invariant 1); `Sort` has no type.  Infallible, as its uses in
`phase/typecheck.rs` (e.g. line 548) require. -/
def TypedValue.fromConst : Const → TypedValue
  | .sort => .mk (.const .sort) none
  | .kind => .mk (.const .kind) (some (.mk (.const .sort) none))
  | .type' =>
    .mk (.const .type')
      (some (.mk (.const .kind) (some (.mk (.const .sort) none))))

/-- Embeds `type_of_const` (`phase/typecheck.rs:133`): `Type ↦ Kind`,
`Kind ↦ Sort`, `Sort ↦ Err(Sort)`. -/
def type_of_const : Const → Except Err TypedValue
  | .type' => .ok (.fromConst .kind)
  | .kind => .ok (.fromConst .sort)
  | .sort => .error .sort

/-! ## The typing context (phase generation)

`Modelled from the spec:` `core/context.rs` is absent from the snapshot.
Per spec §4.D the context is a persistent ordered sequence, newest on top;
`insert_type` shifts every pre-existing entry by `+1` over `V(x,0)` (and
stores the new type itself shifted, as the legacy in-source
`TypecheckContext::insert_type` does); `insert_value` pushes without
shifting; `lookup` walks newest-to-oldest counting same-named entries. -/

inductive CtxEntry where
  | typeB (t : TypedValue)
  | valueB (v : TypedValue)

/-- Shift a `TypedValue` (value and type components) by `+1` over `v`. -/
def TypedValue.shift1 (v : Var) : TypedValue → TypedValue
  | .mk val t => .mk (val.shift1 v) (match t with
      | none => none
      | some t' => some (t'.shift1 v))

def CtxEntry.shift1 (v : Var) : CtxEntry → CtxEntry
  | .typeB t => .typeB (t.shift1 v)
  | .valueB x => .valueB (x.shift1 v)

abbrev Ctx := List (Label × CtxEntry)

def Ctx.insertType (ctx : Ctx) (x : Label) (t : TypedValue) : Ctx :=
  (x, .typeB (t.shift1 ⟨x, 0⟩)) ::
    ctx.map (fun p => (p.1, p.2.shift1 ⟨x, 0⟩))

def Ctx.insertValue (ctx : Ctx) (x : Label) (v : TypedValue) : Ctx :=
  (x, .valueB v) :: ctx

def Ctx.lookup : Ctx → Label → Nat → Option TypedValue
  | [], _, _ => none
  | (l, e) :: rest, x, n =>
    if l = x then
      if n = 0 then
        match e with
        | .typeB t => some (.mk (.var x 0) (some t))
        | .valueB v => some v
      else Ctx.lookup rest x (n - 1)
    else Ctx.lookup rest x n

end Dhall

namespace Dhall

/-! ## The checker's intermediary return type (`phase/typecheck.rs:290`) -/

/-- Embeds `Ret`: either the whole canonical `TypedValue` (`RetWhole`) or just the
inferred type (`RetTypeOnly`), the caller then wrapping the sub-typed
expression with it. -/
inductive Ret where
  | retWhole (tv : TypedValue)
  | retTypeOnly (tv : TypedValue)

/-! ## `tck_pi_type` (phase/typecheck.rs lines 14–44) -/

/-- Build the Pi type `∀(x : tx) → te`: the domain's type must be a universe
constant `ka` (else `InvalidInputType`), the codomain's type a constant `kb`
(else `InvalidOutputType`); the result lives in `function_check ka kb`.
(The `ValueF::Pi` of the source stores the component `TypedValue`s; this
model keeps their value parts, which is all later rules inspect.) -/
def tck_pi_type (x : Label) (tx te : TypedValue) : Except Err TypedValue := do
  let txT ← tx.getType
  let ka ← match txT.value.asConst with
    | some k => pure k
    | none => .error .invalidInputType
  let teT ← te.getType
  let kb ← match teT.value.asConst with
    | some k => pure k
    | none => .error .invalidOutputType
  pure (.mk (.pi x tx.value te.value)
    (some (.fromConst (function_check ka kb))))

/-! ## `tck_union_type` (phase/typecheck.rs lines 79–122) -/

/-- Convert an accumulated label→optional-value list into union fields. -/
def VUFields.ofList : List (Label × Option Value) → VUFields
  | [] => .nil
  | (l, some v) :: r => .consSome l v (VUFields.ofList r)
  | (l, none) :: r => .consNone l (VUFields.ofList r)

/-- Loop of `tck_union_type`: each variant with a payload must have a type
whose type is a universe constant agreeing with the running one `k` (else
`InvalidFieldType`); a repeated label is `UnionTypeDuplicateField`.
The source collects entries into a `HashMap`; the model keeps insertion
order, which no later rule observes. -/
def tck_union_type_go (k : Option Const) (acc : List (Label × Option Value)) :
    List (Label × Option TypedValue) → Except Err TypedValue
  | [] =>
    .ok (.mk (.unionType (VUFields.ofList acc))
      (some (.fromConst (k.getD .type'))))
  | (x, t) :: rest => do
    let k' ← match t with
      | none => pure k
      | some tv => do
        let tt ← tv.getType
        match k, tt.value.asConst with
        | none, some k2 => pure (some k2)
        | some k1, some k2 =>
          if k1 = k2 then pure k else Except.error Err.invalidFieldType
        | _, _ => Except.error Err.invalidFieldType
    if acc.any (fun p => p.1 = x) then .error .unionTypeDuplicateField
    else tck_union_type_go k' (acc ++ [(x, t.map TypedValue.value)]) rest

/-- Embeds `tck_union_type`: an empty union type — and one whose variants carry no
payload, so that `k` is never set — has type `Type` (source comment at
lines 114–116). -/
def tck_union_type (kts : List (Label × Option TypedValue)) :
    Except Err TypedValue :=
  tck_union_type_go none [] kts

/-! ## `type_last_layer`: the App, Annot, TextLit and Merge branches
(phase/typecheck.rs lines 387–409, 554–565 and 846–927).

Each branch receives the already-typed immediate sub-expressions, exactly
like the `ExprF<TypedValue, _>` layer the source matches on.  `as_whnf()`
is the stored value: under the eager model every constructed value is
already in weak head normal form. -/

/-- The `App(f, a)` rule: the WHNF of `f`'s type must be a Pi
(else `NotAFunction`); `a`'s type must equal the domain (else
`TypeMismatch`); the result is the codomain with `a` substituted for
`V(x,0)` and the `x` indices above it shifted down by `1`
(`tb.subst_shift(&x.into(), a)`). -/
def type_last_layer_app (f a : TypedValue) : Except Err Ret := do
  let tf ← f.getType
  match tf.value with
  | .pi x tx tb => do
    let ta ← a.getType
    if Value.alphaEq [] ta.value tx then
      pure (.retTypeOnly (.mk (Value.substShift ⟨x, 0⟩ a.value tb) none))
    else .error .typeMismatch
  | _ => .error .notAFunction

/-- The `Annot(x, t)` rule: the annotation must equal `x`'s inferred type
(else `AnnotMismatch`); the result is `x`'s inferred type. -/
def type_last_layer_annot (x t : TypedValue) : Except Err Ret := do
  let xt ← x.getType
  if Value.alphaEq [] t.value xt.value then pure (.retTypeOnly xt)
  else .error .annotMismatch

/-- One piece of an interpolated text literal, with sub-expressions already
typed (`InterpolatedTextContents<TypedValue>`). -/
inductive Chunk where
  | text (s : String)
  | expr (e : TypedValue)

/-- The type of a checked `Builtin b` reference: `type_with` on
`type_of_builtin b` in closed form.  The scalar builtins' type expression
is `Const(Type)`; `List` and `Optional` have `Type → Type`, which checks to
a Pi living in `function_check Kind Kind = Kind`. -/
def builtinTypeTV : Builtin → TypedValue
  | .list => .mk (.pi "_" (.const .type') (.const .type'))
      (some (.fromConst .kind))
  | .optional => .mk (.pi "_" (.const .type') (.const .type'))
      (some (.fromConst .kind))
  | _ => .fromConst .type'

/-- Embeds `builtin_to_type b` = `type_with(empty, Builtin(b))`: the builtin
reference paired with its type. -/
def builtin_to_type (b : Builtin) : TypedValue :=
  .mk (.builtin b) (some (builtinTypeTV b))

/-- The `TextLit` rule: every interpolated sub-expression must have type
`Text` (else `InvalidTextInterpolation`); the result is `Text`. -/
def type_last_layer_textlit : List Chunk → Except Err Ret
  | [] => .ok (.retTypeOnly (builtin_to_type .text))
  | .text _ :: rest => type_last_layer_textlit rest
  | .expr x :: rest => do
    let xt ← x.getType
    if Value.alphaEq [] xt.value (.builtin .text) then
      type_last_layer_textlit rest
    else .error .invalidTextInterpolation

/-! ### The Merge rule -/

/-- Lookup in union fields: `none` if absent, `some t?` for a variant with
optional payload `t?`. -/
def VUFields.lookup : VUFields → Label → Option (Option Value)
  | .nil, _ => none
  | .consSome l v rest, x => if l = x then some (some v) else rest.lookup x
  | .consNone l rest, x => if l = x then some none else rest.lookup x

/-- The labels of union fields, in order. -/
def VUFields.keys : VUFields → List Label
  | .nil => []
  | .consSome l _ rest => l :: rest.keys
  | .consNone l rest => l :: rest.keys

/-- Whether record fields contain a label. -/
def VFields.hasLabel : VFields → Label → Bool
  | .nil, _ => false
  | .cons l _ rest, x => l = x || rest.hasLabel x

/-- Result type of one merge handler (phase/typecheck.rs lines 862–900).
For a variant with payload the handler's type must be a Pi
(else `NotAFunction`) whose domain equals the payload type (else
`TypeMismatch`); the codomain is extracted from under the binder with
`over_binder` (`shift(-1, V(x,0))`), `MergeHandlerReturnTypeMustNotBeDependent`
when that underflows.  For a payload-less variant the handler's type is
taken whole. -/
def merge_handler_return_type (variantTy : Option Value) (handlerTy : Value) :
    Except Err Value :=
  match variantTy with
  | some vt =>
    match handlerTy with
    | .pi x tx tb =>
      if Value.alphaEq [] vt tx then
        match tb.overBinder x with
        | some r => .ok r
        | none => .error .mergeHandlerReturnTypeMustNotBeDependent
      else .error .typeMismatch
    | _ => .error .notAFunction
  | none => .ok handlerTy

/-- The handler loop: each handler must have a matching variant (else
`MergeHandlerMissingVariant`) and all handler result types must agree
(else `MergeHandlerTypeMismatch`). -/
def merge_loop (variants : VUFields) :
    VFields → Option Value → Except Err (Option Value)
  | .nil, acc => .ok acc
  | .cons x handlerTy rest, acc => do
    let hrt ← match variants.lookup x with
      | some vt => merge_handler_return_type vt handlerTy
      | none => Except.error Err.mergeHandlerMissingVariant
    match acc with
    | none => merge_loop variants rest (some hrt)
    | some t =>
      if Value.alphaEq [] t hrt then merge_loop variants rest acc
      else .error .mergeHandlerTypeMismatch

/-- The `Merge(record, union, annot?)` rule (phase/typecheck.rs lines
846–927): the first argument's type must be a record type, the second's a
union type; every handler is checked by `merge_handler_return_type`; every
variant must have a handler; the inferred type must agree with the
annotation when both are present. -/
def type_last_layer_merge (record union : TypedValue)
    (tyAnnot : Option TypedValue) : Except Err Ret := do
  let recordT ← record.getType
  let handlers ← match recordT.value with
    | .recordType kts => pure kts
    | _ => Except.error Err.merge1ArgMustBeRecord
  let unionT ← union.getType
  let variants ← match unionT.value with
    | .unionType kts => pure kts
    | _ => Except.error Err.merge2ArgMustBeUnion
  let inferred ← merge_loop variants handlers none
  if variants.keys.all (fun x => handlers.hasLabel x) then
    match inferred, tyAnnot with
    | some t1, some t2 =>
      if Value.alphaEq [] t1 t2.value then pure (.retTypeOnly t2)
      else .error .mergeAnnotMismatch
    | some t, none => pure (.retTypeOnly (.mk t none))
    | none, some t => pure (.retTypeOnly t)
    | none, none => .error .mergeEmptyNeedsAnnot
  else .error .mergeVariantMissingHandler

end Dhall

namespace Dhall

/-! ## Syntax and the `type_with` recursion (phase/typecheck.rs lines 301–364)

The expression fragment below covers the constructors the claims exercise
through the full recursion; the record / union / merge / text rules are
settled at the `type_last_layer` level above, where the source receives
already-typed sub-expressions. -/

/-- Source expressions (`ExprF`, restricted fragment). -/
inductive Expr where
  | const (c : Const)
  | var (x : Label) (n : Nat)
  | lam (x : Label) (dom : Expr) (body : Expr)
  | pi (x : Label) (dom : Expr) (cod : Expr)
  | app (f : Expr) (a : Expr)
  | annot (e : Expr) (t : Expr)
  | builtin (b : Builtin)
  | naturalLit (n : Nat)
  | boolLit (b : Bool)
deriving DecidableEq, Repr

/-- Eager one-step normalisation of an application value: β-reduction
`App(Lam(x,_,b), a) → Subst(V(x,0), a, b)` shifted (spec §4.B), the fused
`subst_shift`; anything else is a stuck application.  `Modelled from the
spec:` the lazy `ValueF::PartialExpr` of the source normalises to the same
head on demand. -/
def appValue (f a : Value) : Value :=
  match f with
  | .lam x _ body => Value.substShift ⟨x, 0⟩ a body
  | _ => .app f a

/-- Embeds `type_with` (phase/typecheck.rs:301): the bidirectional recursion.
`Lam`, `Pi` and `Var` are handled specially; the remaining constructors
recursively type their sub-expressions and finish with the corresponding
`type_last_layer` branch, wrapping a `RetTypeOnly` result around the
(eagerly normalised) value of the layer. -/
def type_with (ctx : Ctx) : Expr → Except Err TypedValue
  | .const c => .ok (.fromConst c)
  | .var x n =>
    match ctx.lookup x n with
    | some tv => .ok tv
    | none => .error .unboundVariable
  | .lam x t b => do
    let tx ← type_with ctx t
    let bb ← type_with (ctx.insertType x tx) b
    let tb ← bb.getType
    let piT ← tck_pi_type x tx tb
    pure (.mk (.lam x tx.value bb.value) (some piT))
  | .pi x ta tb => do
    let ta' ← type_with ctx ta
    let tb' ← type_with (ctx.insertType x ta') tb
    tck_pi_type x ta' tb'
  | .app f a => do
    let tf ← type_with ctx f
    let ta ← type_with ctx a
    match ← type_last_layer_app tf ta with
    | .retTypeOnly typ => pure (.mk (appValue tf.value ta.value) (some typ))
    | .retWhole tv => pure tv
  | .annot e t => do
    let te ← type_with ctx e
    let tt ← type_with ctx t
    match ← type_last_layer_annot te tt with
    | .retTypeOnly typ => pure (.mk te.value (some typ))
    | .retWhole tv => pure tv
  | .builtin b => .ok (builtin_to_type b)
  | .naturalLit n => .ok (.mk (.naturalLit n) (some (builtin_to_type .natural)))
  | .boolLit b => .ok (.mk (.boolLit b) (some (builtin_to_type .bool)))

/-- The current entry point (`phase/typecheck.rs:955`): `type_with` on the
empty context, with **no** further check on the result. -/
def typecheck (e : Expr) : Except Err TypedValue :=
  type_with [] e

/-- Embeds `typecheck_with` (`phase/typecheck.rs:961`): typecheck against an
expected type by annotating. -/
def typecheck_with (e t : Expr) : Except Err TypedValue :=
  typecheck (.annot e t)

namespace Legacy

/-- The legacy entry point `type_of` (`src/dhall/src/typecheck.rs:1012`):
run `type_with` on the empty context, then *ensure the result itself has a
type* ("Ensure `e` has a type (i.e. `e` is not `Sort`)"); on the universe
fragment the two generations' recursions coincide, so the phase `type_with`
is reused here. -/
def type_of (e : Expr) : Except Err TypedValue := do
  let tv ← Dhall.typecheck e
  let _ ← tv.getType
  pure tv

/-! ### The legacy typing context (`src/dhall/src/typecheck.rs` lines 184–236)

`EnvItem` holds either a variable paired with its declared type, or a
normalized let-bound value.  (The payloads are modelled as `Value`s; the
`Context` container from `dhall_core`, absent from the snapshot, is the
ordered newest-first sequence of spec §4.D.) -/

inductive EnvItem where
  | typeItem (v : Var) (t : Value)
  | valueItem (e : Value)

/-- Embeds `V::shift(1, target)` (`dhall_core`): bump the index when the name
matches and the index is at least the target's. -/
def varShift1 (target w : Var) : Var :=
  if w.name = target.name ∧ w.idx ≥ target.idx then ⟨w.name, w.idx + 1⟩ else w

/-- Embeds `EnvItem::shift(1, x)` (typecheck.rs:190): shift both components of a
type entry, the value of a value entry. -/
def EnvItem.shift1 (x : Var) : EnvItem → EnvItem
  | .typeItem v t => .typeItem (varShift1 x v) (t.shift1 x)
  | .valueItem e => .valueItem (e.shift1 x)

abbrev Ctx := List (Label × EnvItem)

/-- Embeds `TypecheckContext::insert_type` (typecheck.rs:207): map `shift(1, V(x,0))`
over every existing entry, and push `(x, Type(V(x,0), t.shift(1, V(x,0))))`
on top. -/
def insert_type (ctx : Ctx) (x : Label) (t : Value) : Ctx :=
  (x, .typeItem ⟨x, 0⟩ (t.shift1 ⟨x, 0⟩)) ::
    ctx.map (fun p => (p.1, p.2.shift1 ⟨x, 0⟩))

/-- Embeds `TypecheckContext::insert_value` (typecheck.rs:215): push the value
binding with no shifting. -/
def insert_value (ctx : Ctx) (x : Label) (v : Value) : Ctx :=
  (x, .valueItem v) :: ctx

end Legacy

end Dhall

namespace Dhall

/-! # Claims -/

/-- C2: For every pair of universe constants `a`, `b` (ordered
`Type < Kind < Sort`), the universe computation used by the Pi rule of the
current checker satisfies `function_check a b = Type` when `b = Type` and
`function_check a b = max a b` otherwise; it is total (defined for every
pair, including `a = Type, b = Kind`), as its Lean type already shows. -/
theorem function_check_matches_spec (a b : Const) :
    (b = Const.type' → function_check a b = Const.type') ∧
    (b ≠ Const.type' → function_check a b = Const.max a b) := by
  constructor <;> intro h <;> simp [function_check, h]

/-- Witness for C2 at the pair the claim singles out:
`function_check Type Kind` is defined and equals `max Type Kind = Kind`. -/
theorem function_check_matches_spec_witness :
    function_check .type' .kind = Const.max .type' .kind ∧
      Const.max .type' .kind = .kind :=
  ⟨(function_check_matches_spec .type' .kind).2 (by decide), by decide⟩

/-- C8: a numeric double literal whose IEEE-754 parse is infinite is
rejected (overflow), any other successful parse is accepted unchanged, and
the dedicated `NaN` / `-Infinity` / `Infinity` literal rules succeed with
the corresponding `f64` values. -/
theorem double_literal_rules (x : F64) :
    (x.isInfinite = true →
      numeric_double_literal (.ok x) =
        .error "Overflow while parsing double literal") ∧
    (x.isInfinite = false → numeric_double_literal (.ok x) = .ok x) ∧
    NaN_literal = .ok .nan ∧
    minus_infinity_literal = .ok .negInf ∧
    plus_infinity_literal = .ok .posInf := by
  refine ⟨fun h => ?_, fun h => ?_, rfl, rfl, rfl⟩ <;>
    simp [numeric_double_literal, h]

/-- Witness for C8: the infinite parse `+∞` is rejected, a finite parse is
accepted. -/
theorem double_literal_rules_witness :
    numeric_double_literal (.ok .posInf) =
      .error "Overflow while parsing double literal" ∧
    numeric_double_literal (.ok (.finite 1 0)) = .ok (.finite 1 0) :=
  ⟨(double_literal_rules .posInf).1 rfl,
    (double_literal_rules (.finite 1 0)).2.1 rfl⟩

/-- C9 (refuted: the code underflows): on `vl = V("x",0)`, `vr = V("y",0)`
with stack `[("x","x")]`, the left side's name matches the stack entry with
index already `0` while the right variable does not match, so the legacy
`match_vars` executes `nL -= 1` on the `usize` `0` — an arithmetic
underflow (modelled as `none`) instead of returning a boolean. -/
theorem match_vars_underflows :
    match_vars ⟨"x", 0⟩ ⟨"y", 0⟩ [("x", "x")] = none ∧
      match_vars ⟨"x", 0⟩ ⟨"y", 0⟩ [("z", "z")] = some false := ⟨rfl, rfl⟩

/-- C4: `insert_type x t` pushes one entry and shifts every entry already
present by `+1` over `V(x,0)`, while `insert_value` pushes without touching
the existing entries.  (Both are pure: the original context value is a Lean
value and is unchanged by construction.) -/
theorem insert_type_shifts_insert_value_does_not
    (ctx : Legacy.Ctx) (x : Label) (t v : Value) (i : Nat) :
    (Legacy.insert_type ctx x t).length = ctx.length + 1 ∧
    (Legacy.insert_value ctx x v).length = ctx.length + 1 ∧
    (Legacy.insert_type ctx x t)[i + 1]? =
      (ctx[i]?).map (fun p => (p.1, p.2.shift1 ⟨x, 0⟩)) ∧
    (Legacy.insert_value ctx x v)[i + 1]? = ctx[i]? := by
  refine ⟨?_, ?_, ?_, ?_⟩ <;>
    simp [Legacy.insert_type, Legacy.insert_value]

/-- C1 (amended): in both generations `typecheck (Const Type)` yields a
value whose type is `Const Kind` and `typecheck (Const Kind)` one whose
type is `Const Sort`; the *legacy* entry point `type_of` additionally
verifies that the result itself has a type and fails with `Sort` on
`Const Sort`, while the current entry point `typecheck`
(phase/typecheck.rs:955) performs no such verification. -/
theorem universe_stratification_entry_points :
    Legacy.type_of (.const .type') = .ok (.fromConst .type') ∧
    (TypedValue.fromConst .type').typ = some (.fromConst .kind) ∧
    Legacy.type_of (.const .kind) = .ok (.fromConst .kind) ∧
    (TypedValue.fromConst .kind).typ = some (.fromConst .sort) ∧
    Legacy.type_of (.const .sort) = .error .sort ∧
    typecheck (.const .type') = .ok (.fromConst .type') ∧
    typecheck (.const .kind) = .ok (.fromConst .kind) := by
  refine ⟨rfl, rfl, rfl, rfl, rfl, rfl, rfl⟩

/-- C1 counterexample: the current entry point does *not* reject `Sort` —
`typecheck (Const Sort)` succeeds, returning the untypable value instead of
failing with the `Sort` error. -/
theorem typecheck_sort_succeeds :
    typecheck (.const .sort) = .ok (.mk (.const .sort) none) := rfl

/-- C5 (refuted: the dependence check misses nested same-named binders):
the handler type `∀(x : Natural) → ∀(x : Bool) → x@1` has a codomain that
mentions the Pi's bound variable (`freeAt (x,0)` of the codomain is true,
the mention sitting under a same-named inner binder as `x@1`), yet the
Merge rule succeeds: `over_binder` only underflows on an index-0 mention,
so the mention is silently shifted onto the *inner* binder and the rule
returns the captured codomain `∀(x : Bool) → x@0`.  A directly-dependent
codomain `x@0` is, in contrast, correctly rejected. -/
theorem merge_dependent_handler_not_detected :
    Value.freeAt ⟨"x", 0⟩ (Value.pi "x" (.builtin .bool) (.var "x" 1)) = true ∧
    type_last_layer_merge
      (.mk (.recordLit .nil)
        (some (.mk (.recordType (.cons "h"
            (.pi "x" (.builtin .natural)
              (.pi "x" (.builtin .bool) (.var "x" 1))) .nil))
          (some (.fromConst .type')))))
      (.mk (.var "u" 0)
        (some (.mk (.unionType (.consSome "h" (.builtin .natural) .nil))
          (some (.fromConst .type')))))
      none
      = .ok (.retTypeOnly (.mk (.pi "x" (.builtin .bool) (.var "x" 0)) none)) ∧
    type_last_layer_merge
      (.mk (.recordLit .nil)
        (some (.mk (.recordType (.cons "h"
            (.pi "x" (.builtin .natural) (.var "x" 0)) .nil))
          (some (.fromConst .type')))))
      (.mk (.var "u" 0)
        (some (.mk (.unionType (.consSome "h" (.builtin .natural) .nil))
          (some (.fromConst .type')))))
      none
      = .error .mergeHandlerReturnTypeMustNotBeDependent := ⟨rfl, rfl, rfl⟩

end Dhall

namespace Dhall

/-- The two checker generations disagree on the universe rule: the legacy
`function_check` errors on `(Type, Kind)` where the current one returns
`Kind` (context for C2). -/
theorem function_check_generations_disagree :
    Legacy.function_check .type' .kind = .error () ∧
      Dhall.function_check .type' .kind = .kind := by
  constructor <;> rfl

/-- Invariant of the `tck_union_type` loop on payload-less input: with no
payload the universe accumulator stays unset and every label is appended;
used by the C10 theorem. -/
theorem tck_union_go_all_none (kts : List (Label × Option TypedValue))
    (acc : List (Label × Option Value))
    (hnone : ∀ p ∈ kts, p.2 = none)
    (hdisj : ∀ l ∈ kts.map Prod.fst, acc.any (fun p => p.1 = l) = false)
    (hnodup : (kts.map Prod.fst).Nodup) :
    tck_union_type_go none acc kts =
      .ok (.mk (.unionType (VUFields.ofList
          (acc ++ kts.map (fun p => (p.1, none)))))
        (some (.fromConst .type'))) := by
  induction kts generalizing acc with
  | nil => simp [tck_union_type_go]
  | cons hd tl ih =>
    obtain ⟨x, t⟩ := hd
    have ht : t = none := hnone (x, t) (by simp)
    subst ht
    have hx : acc.any (fun p => p.1 = x) = false := hdisj x (by simp)
    have hnodup' : (x :: tl.map Prod.fst).Nodup := by simpa using hnodup
    have hxtl : x ∉ tl.map Prod.fst := (List.nodup_cons.mp hnodup').1
    simp only [tck_union_type_go, hx, Bool.false_eq_true, if_false, pure,
      Except.pure, bind, Except.bind, Option.map]
    rw [ih (acc ++ [(x, none)])]
    · simp
    · intro p hp; exact hnone p (by simp [hp])
    · intro l hl
      have hne : x ≠ l := by rintro rfl; exact hxtl hl
      simp [List.any_append, hdisj l (by simp [hl])]
      exact hne
    · exact (List.nodup_cons.mp hnodup').2

/-- C10: a union type all of whose variants lack payload types — with
pairwise distinct labels, duplicates being the separate
`UnionTypeDuplicateField` error — typechecks successfully, and its assigned
universe is `Type` (not only for the empty union). -/
theorem payloadless_union_has_type_type
    (kts : List (Label × Option TypedValue))
    (hnone : ∀ p ∈ kts, p.2 = none)
    (hnodup : (kts.map Prod.fst).Nodup) :
    tck_union_type kts =
      .ok (.mk (.unionType (VUFields.ofList (kts.map (fun p => (p.1, none)))))
        (some (.fromConst .type'))) := by
  have h := tck_union_go_all_none kts [] hnone (by simp) hnodup
  simpa [tck_union_type] using h

/-- Witness for C10: the two-variant payload-less union `< A | B >` has
type `Type`. -/
theorem payloadless_union_has_type_type_witness :
    tck_union_type [("A", none), ("B", none)] =
      .ok (.mk (.unionType (VUFields.ofList [("A", none), ("B", none)]))
        (some (.fromConst .type'))) := by
  have h := payloadless_union_has_type_type [("A", none), ("B", none)]
    (by intro p hp; simp at hp; rcases hp with rfl | rfl <;> rfl)
    (by simp)
  simpa using h

/-- C6: typechecking a text literal succeeds — with inferred type `Text` —
if and only if every interpolated sub-expression has type `Text`; any other
outcome of the rule is an error, so it fails exactly when some interpolated
sub-expression does not have type `Text`. -/
theorem textlit_rule (chunks : List Chunk) :
    (type_last_layer_textlit chunks = .ok (.retTypeOnly (builtin_to_type .text)) ↔
      ∀ tv, Chunk.expr tv ∈ chunks →
        ∃ t, tv.getType = .ok t ∧ Value.alphaEq [] t.value (.builtin .text) = true) ∧
    (∀ r, type_last_layer_textlit chunks = .ok r →
      r = .retTypeOnly (builtin_to_type .text)) := by
  induction chunks with
  | nil =>
    constructor
    · constructor
      · intro _ tv h; cases h
      · intro _; rfl
    · intro r hr
      simp only [type_last_layer_textlit, Except.ok.injEq] at hr
      exact hr.symm
  | cons c rest ih =>
    cases c with
    | text s =>
      constructor
      · rw [show type_last_layer_textlit (.text s :: rest) =
            type_last_layer_textlit rest from rfl, ih.1]
        constructor
        · intro h tv hm
          rcases List.mem_cons.mp hm with h' | h'
          · exact absurd h' (by simp)
          · exact h tv h'
        · intro h tv hm
          exact h tv (List.mem_cons_of_mem _ hm)
      · intro r hr
        exact ih.2 r hr
    | expr x =>
      cases hgt : x.getType with
      | error e =>
        have hl : type_last_layer_textlit (.expr x :: rest) = .error e := by
          simp [type_last_layer_textlit, hgt, bind, Except.bind]
        constructor
        · constructor
          · intro h; rw [hl] at h; cases h
          · intro h
            obtain ⟨t, ht, _⟩ := h x (List.mem_cons_self _ _)
            rw [hgt] at ht; cases ht
        · intro r hr; rw [hl] at hr; cases hr
      | ok xt =>
        cases heq : Value.alphaEq [] xt.value (.builtin .text) with
        | false =>
          have hl : type_last_layer_textlit (.expr x :: rest) =
              .error .invalidTextInterpolation := by
            simp [type_last_layer_textlit, hgt, heq, bind, Except.bind]
          constructor
          · constructor
            · intro h; rw [hl] at h; cases h
            · intro h
              obtain ⟨t, ht, hteq⟩ := h x (List.mem_cons_self _ _)
              rw [hgt] at ht
              injection ht with h2
              subst h2
              rw [heq] at hteq
              cases hteq
          · intro r hr; rw [hl] at hr; cases hr
        | true =>
          have hl : type_last_layer_textlit (.expr x :: rest) =
              type_last_layer_textlit rest := by
            simp [type_last_layer_textlit, hgt, heq, bind, Except.bind]
          rw [hl]
          constructor
          · rw [ih.1]
            constructor
            · intro h tv hm
              rcases List.mem_cons.mp hm with h' | h'
              · injection h' with h''
                subst h''
                exact ⟨xt, hgt, heq⟩
              · exact h tv h'
            · intro h tv hm; exact h tv (List.mem_cons_of_mem _ hm)
          · exact ih.2

/-- Witness for C6: a literal with one text piece and one `Text`-typed
interpolation checks to `Text`. -/
theorem textlit_rule_witness :
    type_last_layer_textlit
      [.text "a", .expr (.mk (.var "t" 0) (some (builtin_to_type .text)))] =
      .ok (.retTypeOnly (builtin_to_type .text)) := by
  apply (textlit_rule _).1.mpr
  intro tv hm
  simp at hm
  subst hm
  exact ⟨builtin_to_type .text, rfl, rfl⟩

/-- C3: for an application `App(f, a)` with `f`'s type known: if the (head
normal) value of that type is not a Pi the rule fails with `NotAFunction`;
if it is `Pi(x, t_in, t_out)` and `a`'s type is not equal to `t_in` it
fails with `TypeMismatch`; otherwise the inferred type is `t_out` with `a`
substituted for `V(x,0)` and the remaining `x` indices shifted down by `1`
(the fused `subst_shift`). -/
theorem app_rule (f a : TypedValue) (tf : TypedValue)
    (hf : f.getType = .ok tf) :
    (tf.value.isPi = false → type_last_layer_app f a = .error .notAFunction) ∧
    (∀ x tx tb, tf.value = .pi x tx tb →
      ∀ ta, a.getType = .ok ta →
        (Value.alphaEq [] ta.value tx = false →
          type_last_layer_app f a = .error .typeMismatch) ∧
        (Value.alphaEq [] ta.value tx = true →
          type_last_layer_app f a =
            .ok (.retTypeOnly (.mk (Value.substShift ⟨x, 0⟩ a.value tb) none)))) := by
  constructor
  · intro hnp
    simp only [type_last_layer_app, hf, bind, Except.bind]
    cases hv : tf.value <;> simp_all [Value.isPi]
  · intro x tx tb hpi ta ha
    constructor <;> intro heq <;>
      simp [type_last_layer_app, hf, hpi, ha, heq, bind, Except.bind, pure,
        Except.pure]

/-- Witness for C3: applying `f : ∀(x : Natural) → Bool` to `3 : Natural`
infers type `Bool`. -/
theorem app_rule_witness :
    type_last_layer_app
      (.mk (.var "f" 0)
        (some (.mk (.pi "x" (.builtin .natural) (.builtin .bool)) none)))
      (.mk (.naturalLit 3) (some (.mk (.builtin .natural) none))) =
      .ok (.retTypeOnly (.mk (.builtin .bool) none)) := by
  have h := ((app_rule
      (.mk (.var "f" 0)
        (some (.mk (.pi "x" (.builtin .natural) (.builtin .bool)) none)))
      (.mk (.naturalLit 3) (some (.mk (.builtin .natural) none)))
      (.mk (.pi "x" (.builtin .natural) (.builtin .bool)) none)
      rfl).2 "x" (.builtin .natural) (.builtin .bool) rfl
      (.mk (.builtin .natural) none) rfl).2 rfl
  simpa using h

/-- C7: if `typecheck e` succeeds with inferred type `ty`, then annotating
`e` with any expression `t` that itself typechecks to a value equal to `ty`
(in particular the read-back of `ty`, as `typecheck_with` is used) succeeds
and returns the same result as `typecheck e`. -/
theorem annot_roundtrip (e t : Expr) (v : Value) (ty tt : TypedValue)
    (he : typecheck e = .ok (.mk v (some ty)))
    (ht : typecheck t = .ok tt)
    (heq : Value.alphaEq [] tt.value ty.value = true) :
    typecheck_with e t = typecheck e := by
  simp only [typecheck] at he ht
  simp only [typecheck_with, typecheck, type_with, he, ht, bind, Except.bind,
    type_last_layer_annot, TypedValue.getType, heq, if_true, pure, Except.pure]
  rfl

/-- Witness for C7: `3 : Natural` annotated with its inferred type
`Natural` typechecks to the same result as `3` alone. -/
theorem annot_roundtrip_witness :
    typecheck_with (.naturalLit 3) (.builtin .natural) =
      typecheck (.naturalLit 3) :=
  annot_roundtrip (.naturalLit 3) (.builtin .natural)
    (.naturalLit 3) (builtin_to_type .natural) (builtin_to_type .natural)
    rfl rfl rfl

end Dhall
